import Mathlib

/-!
Verification of the schema-normalization and deduplication engine of the
real-estate data processor (src/real_estate_processor.py).

The embedding models one pandas cell value as either a string or the
float-NaN missing sentinel (`Val.nan`); rows, canonical records and column
mappings are insertion-ordered association lists, mirroring Python dicts
and pandas Series.  The md5 digest used by the duplicate-identity key is
modelled as the identity on the joined key string: the deduplication step
only ever compares digests for equality, equal strings have equal digests,
and distinct short key strings have distinct digests.  Python string
operations are modelled over ASCII data (lower/upper, whitespace), which
covers every string manipulated by the claims.
-/

set_option maxRecDepth 10000

deriving instance DecidableEq for Except

/-- A pandas cell value as seen by the per-row transformation: either a
string or the NaN sentinel pandas substitutes for a missing cell. -/
inductive Val where
  | str (s : String)
  | nan
  deriving DecidableEq

/-- Python truthiness of a cell value: the empty string is falsy, every
other string is truthy, and the float NaN is truthy. -/
def Val.truthy : Val → Bool
  | .str s => s != ""
  | .nan => true

/-- pd.isna on a cell value. -/
def Val.isna : Val → Bool
  | .str _ => false
  | .nan => true

/-- Python str() of a cell value; str(float nan) is the string nan. -/
def Val.toPy : Val → String
  | .str s => s
  | .nan => "nan"

/-- Whether a cell value is an actual string (and not the NaN sentinel). -/
def isStrVal : Val → Bool
  | .str _ => true
  | .nan => false

/-- One input row: the table's column names paired with cell values, in
column order (a pandas Series produced by DataFrame.iterrows). -/
abbrev Row := List (String × Val)

/-- One canonical record: an insertion-ordered dict from field name to
cell value, as built by the row transformation. -/
abbrev Rec := List (String × Val)

/-- First value stored under a key in an association list (dict lookup). -/
def lookupA {κ α : Type} [DecidableEq κ] : List (κ × α) → κ → Option α
  | [], _ => none
  | (k, v) :: r, q => if k = q then some v else lookupA r q

/-- dict.get with a default. -/
def getA {κ α : Type} [DecidableEq κ] (l : List (κ × α)) (q : κ) (d : α) : α :=
  (lookupA l q).getD d

/-- Key membership (the Python in operator on a dict or Series). -/
def memA {κ α : Type} [DecidableEq κ] (l : List (κ × α)) (q : κ) : Bool :=
  (lookupA l q).isSome

/-- Python dict assignment d[q] = v: replace the value at an existing key
in place, keeping its position, or append a new key at the end. -/
def setF {κ α : Type} [DecidableEq κ] : List (κ × α) → κ → α → List (κ × α)
  | [], q, v => [(q, v)]
  | (k, w) :: r, q, v => if k = q then (q, v) :: r else (k, w) :: setF r q v

/-- Python str whitespace (ASCII): space, tab, newline, CR, VT, FF. -/
def pySpace (c : Char) : Bool :=
  c == ' ' || c == '\t' || c == '\n' || c == '\r' || c == '\x0b' || c == '\x0c'

/-- str.strip() on the character list. -/
def pyStripL (l : List Char) : List Char :=
  ((l.dropWhile pySpace).reverse.dropWhile pySpace).reverse

/-- str.strip(). -/
def pyStrip (s : String) : String := ⟨pyStripL s.data⟩

/-- str.lower() (ASCII). -/
def pyLower (s : String) : String := ⟨s.data.map Char.toLower⟩

/-- Helper for str.split() with no argument: accumulate the current word
(reversed) and break at whitespace, discarding empty pieces. -/
def splitWsGo : List Char → List Char → List (List Char)
  | [], acc => if acc = [] then [] else [acc.reverse]
  | c :: r, acc =>
    if pySpace c then
      if acc = [] then splitWsGo r [] else acc.reverse :: splitWsGo r []
    else splitWsGo r (c :: acc)

/-- str.split() with no argument: whitespace-delimited tokens, empties
discarded. -/
def pyTokens (s : String) : List String := (splitWsGo s.data []).map (fun w => ⟨w⟩)

/-- Python space.join. -/
def joinSpace : List String → String
  | [] => ""
  | [x] => x
  | x :: xs => x ++ " " ++ joinSpace xs

/-- Python bar.join, used by the duplicate-identity key. -/
def joinBar : List String → String
  | [] => ""
  | [x] => x
  | x :: xs => x ++ "|" ++ joinBar xs

/-- List-level startswith check. -/
def isPfxL : List Char → List Char → Bool
  | [], _ => true
  | _ :: _, [] => false
  | a :: as, b :: bs => a == b && isPfxL as bs

/-- str.startswith. -/
def strHasPfx (p s : String) : Bool := isPfxL p.data s.data

/-- Decimal value of a digit run (Python int()). -/
def digitsVal (l : List Char) : Nat :=
  l.foldl (fun n c => n * 10 + (c.toNat - 48)) 0

/-- The 27 canonical output fields, in canonical order
(self.output_columns). -/
def outputColumns : List String :=
  ["Street Address", "Unit #", "City", "State", "Postal Code",
   "First Name", "Last Name", "Mailing Address", "Mailing Unit #",
   "Mailing City", "Mailing State", "Mailing Zip", "Property Type",
   "Bedrooms", "Total Bathrooms", "Building Sqft", "Lot Size Sqft",
   "Est. Value", "Phone 1", "Phone 2", "Phone 3", "Phone 4", "Phone 5",
   "Email", "Email 2", "Email 3", "Email 4", "Email 5"]

/-- The exact-alias entries of self.column_mappings, in dict order, with
the Pattern entries skipped as the mapper does. -/
def directAliases : List (String × List String) :=
  [("Street Address",
    ["Street Address", "Address", "Property Address", "PROPERTY ADDRESS"]),
   ("Unit #", ["Unit #", "Unit", "APT", "APARTMENT", "UNIT NUMBER"]),
   ("City", ["City", "Property City", "PROPERTY CITY", "CITY"]),
   ("State", ["State", "Property State", "PROPERTY STATE", "ST", "STATE"]),
   ("Postal Code",
    ["Postal Code", "Zip", "Property Zip", "PROPERTY ZIP", "ZIP", "ZIP CODE"]),
   ("First Name",
    ["First Name", "Owner 1 First Name", "OWNER FIRST NAME", "FIRST NAME"]),
   ("Last Name",
    ["Last Name", "Owner 1 Last Name", "OWNER LAST NAME", "LAST NAME"]),
   ("Mailing Address",
    ["Mailing Address", "Owner Mailing Address", "MAILING ADDRESS", "MAIL ADDRESS"]),
   ("Mailing Unit #",
    ["Mailing Unit #", "Mailing Unit", "MAILING APT", "MAIL UNIT"]),
   ("Mailing City",
    ["Mailing City", "Owner Mailing City", "MAILING CITY", "MAIL CITY"]),
   ("Mailing State",
    ["Mailing State", "Owner Mailing State", "MAILING STATE", "MAIL STATE"]),
   ("Mailing Zip",
    ["Mailing Zip", "Owner Mailing Zip", "MAILING ZIP", "MAIL ZIP"]),
   ("Property Type", ["Property Type", "Land Use", "PROPERTY TYPE", "TYPE"]),
   ("Bedrooms", ["Bedrooms", "Bedroom Count", "BEDROOMS", "BED", "BR"]),
   ("Total Bathrooms",
    ["Total Bathrooms", "Bathroom Count", "Bathrooms", "BATHROOMS", "BATH", "BA"]),
   ("Building Sqft",
    ["Building Sqft", "Living Square Feet", "Total Building Area Square Feet",
     "BUILDING SQFT", "SQ FT", "SQFT"]),
   ("Lot Size Sqft",
    ["Lot Size Sqft", "Lot (Square Feet)", "Lot Size Square Feet",
     "LOT SIZE", "LOT SQFT"]),
   ("Est. Value",
    ["Est. Value", "Total Assessed Value", "ASSESSED VALUE", "VALUE"])]

/-- One discovery regex of the form literal-head, digit group, literal
tail, anchored at the start of the column name and free at its end
(re.match is a prefix match).  Returns the captured digit group. -/
def matchPatNum (pfx sfx : String) (col : String) : Option String :=
  if isPfxL pfx.data col.data then
    let r := col.data.drop pfx.data.length
    let ds := r.takeWhile Char.isDigit
    if ds = [] then none
    else if isPfxL sfx.data (r.drop ds.length) then some (⟨ds⟩ : String) else none
  else none

/-- The Phone Patterns list, in priority order: each pair is the literal
text before and after the digit group. -/
def phonePats : List (String × String) :=
  [("Phone ", ""), ("Phone", ""), ("Cell ", ""), ("Cell", ""),
   ("Landline ", ""), ("Landline", ""), ("PHONE", ""), ("CELL", "")]

/-- The Email Patterns list, in priority order. -/
def emailPats : List (String × String) :=
  [("Email ", ""), ("Email", ""), ("Email", "_x"), ("EMAIL", "")]

/-- First pattern (in priority order) matching a column name, with its
captured digit group; the per-column break of _find_pattern_columns. -/
def firstPatMatch : List (String × String) → String → Option String
  | [], _ => none
  | (p, s) :: r, col =>
    match matchPatNum p s col with
    | some n => some n
    | none => firstPatMatch r col

/-- The normalized slot label _find_pattern_columns stores: the family
base (Phone or Email), a space, and the captured digit group. -/
def patKey (isPhone : Bool) (num : String) : String :=
  if isPhone then "Phone " ++ num else "Email " ++ num

/-- _find_pattern_columns: scan the table columns in order; the first
pattern that matches a column determines its slot, and a later column
mapping to the same slot overwrites the earlier one (dict assignment). -/
def findPatternCols (isPhone : Bool) (pats : List (String × String))
    (cols : List String) : List (String × String) :=
  cols.foldl
    (fun acc col =>
      match firstPatMatch pats col with
      | some num => setF acc (patKey isPhone num) col
      | none => acc)
    []

/-- Owner First Name Pattern list. -/
def ownerFirstPats : List (String × String) :=
  [("Owner ", " First Name"), ("Owner", " First Name"), ("OWNER", "_FIRST_NAME")]

/-- Owner Last Name Pattern list. -/
def ownerLastPats : List (String × String) :=
  [("Owner ", " Last Name"), ("Owner", " Last Name"), ("OWNER", "_LAST_NAME")]

/-- Scan for owner-name pattern columns: ordinal (int of the captured
group) to column name, later columns with the same ordinal overwriting. -/
def ownerScan (pats : List (String × String)) (cols : List String) :
    List (Nat × String) :=
  cols.foldl
    (fun acc col =>
      match firstPatMatch pats col with
      | some n => setF acc (digitsVal n.data) col
      | none => acc)
    []

/-- dict.update: fold the update entries into the base mapping. -/
def updAll (base upd : List (String × String)) : List (String × String) :=
  upd.foldl (fun a kv => setF a kv.1 kv.2) base

/-- The exact-alias stage of _create_column_mapping: first alias found in
the table wins, scanning aliases in listed priority order. -/
def directMap (cols : List String) : List (String × String) :=
  directAliases.foldl
    (fun acc fa =>
      match fa.2.find? (fun a => cols.contains a) with
      | some c => setF acc fa.1 c
      | none => acc)
    []

/-- The primary-owner promotion stage: only when ordinal 1 has both a
first- and a last-name column are they written into the name slots. -/
def ownerPromote (m : List (String × String)) (fn ln : List (Nat × String)) :
    List (String × String) :=
  match lookupA fn 1, lookupA ln 1 with
  | some fc, some lc => setF (setF m "First Name" fc) "Last Name" lc
  | _, _ => m

/-- _create_column_mapping: exact-alias matches first, then
pattern-discovered phone and email slots, then promotion of the
ordinal-1 owner pair into First Name/Last Name. -/
def createColumnMapping (cols : List String) : List (String × String) :=
  ownerPromote
    (updAll (updAll (directMap cols) (findPatternCols true phonePats cols))
      (findPatternCols false emailPats cols))
    (ownerScan ownerFirstPats cols) (ownerScan ownerLastPats cols)

/-- _split_name.  Guard: a falsy (empty) or NaN full name yields the empty
pair.  Otherwise strip and split on whitespace; a whitespace-only value
produces zero tokens, on which the final branch indexes parts at zero and
raises IndexError, modelled as Except.error. -/
def splitName : Val → Except Unit (String × String)
  | .nan => .ok ("", "")
  | .str s =>
    if s = "" then .ok ("", "")
    else
      match pyTokens (pyStrip s) with
      | [] => .error ()
      | [a] => .ok (a, "")
      | [a, b] => .ok (a, b)
      | a :: rest => .ok (a, joinSpace rest)

/-- The unit designators of the first unit pattern, in alternation order. -/
def unitDesignators : List String :=
  ["#", "UNIT", "APT", "APARTMENT", "STE", "SUITE"]

/-- Case-insensitive character comparison (re.IGNORECASE, ASCII). -/
def ciEq (a b : Char) : Bool := a.toUpper == b.toUpper

/-- Case-insensitive startswith on character lists. -/
def isPfxCI : List Char → List Char → Bool
  | [], _ => true
  | _ :: _, [] => false
  | p :: ps, c :: cs => ciEq p c && isPfxCI ps cs

/-- Try the designator alternation at the current position; none of the
alternatives is a prefix of another, so at most one can match, and the
remainder after the matched designator is returned. -/
def matchDesigAux : List (List Char) → List Char → Option (List Char)
  | [], _ => none
  | d :: ds, l => if isPfxCI d l then some (l.drop d.length) else matchDesigAux ds l

/-- The designator alternation of the first unit pattern. -/
def matchDesig (l : List Char) : Option (List Char) :=
  matchDesigAux (unitDesignators.map String.data) l

/-- The character class of the captured unit token: ASCII letters, digits
and the dash. -/
def isUnitChar (c : Char) : Bool := c.isAlpha || c.isDigit || c == '-'

/-- Try the whole first unit pattern at the current position: designator,
greedy whitespace, then a maximal nonempty token of unit characters.
Returns the captured token and the remainder after the full match. -/
def p1Try (l : List Char) : Option (List Char × List Char) :=
  match matchDesig l with
  | none => none
  | some r1 =>
    let r2 := r1.dropWhile pySpace
    let g := r2.takeWhile isUnitChar
    if g = [] then none else some (g, r2.dropWhile isUnitChar)

/-- re.search of the first unit pattern: leftmost position wins; the
captured group of that match. -/
def p1Find : List Char → Option (List Char)
  | [] => none
  | l :: cs =>
    match p1Try (l :: cs) with
    | some gr => some gr.1
    | none => p1Find cs

/-- Fuelled scanner for re.sub of the first unit pattern with the empty
replacement: remove every non-overlapping match, scanning left to right
and resuming after each match.  Every step consumes at least one
character, so fuel equal to the input length never runs out. -/
def p1SubAllF : Nat → List Char → List Char
  | 0, l => l
  | _ + 1, [] => []
  | fuel + 1, c :: cs =>
    match p1Try (c :: cs) with
    | some gr => p1SubAllF fuel gr.2
    | none => c :: p1SubAllF fuel cs

/-- re.sub of the first unit pattern with the empty replacement. -/
def p1SubAll (l : List Char) : List Char := p1SubAllF l.length l

/-- Core of the second unit pattern (whitespace then a trailing unit
token, anchored at the end): the token is the maximal unit-character
suffix, and it must be preceded by at least one whitespace character.
Returns the captured token and the input with the whole match removed. -/
def p2Core (m : List Char) : Option (List Char × List Char) :=
  let r := m.reverse
  let tR := r.takeWhile isUnitChar
  if tR = [] then none
  else
    let r2 := r.drop tR.length
    let wR := r2.takeWhile pySpace
    if wR = [] then none
    else some (tR.reverse, (r2.drop wR.length).reverse)

/-- The second unit pattern with the Python dollar anchor, which also
matches just before a final newline: in that case the match sits before
the newline and removal keeps the newline. -/
def p2Try (l : List Char) : Option (List Char × List Char) :=
  if l.getLast? = some '\n' then
    match p2Core l.dropLast with
    | some gp => some (gp.1, gp.2 ++ ['\n'])
    | none => none
  else p2Core l

/-- _extract_unit: a falsy or NaN address yields empty results; otherwise
the two unit patterns are tried in order, the first one that matches
anywhere supplies the captured token, every occurrence of that pattern is
removed from the address and the remainder is stripped. -/
def extractUnit : Val → String × String
  | .nan => ("", "")
  | .str s =>
    if s = "" then ("", "")
    else
      match p1Find s.data with
      | some g => (pyStrip ⟨p1SubAll s.data⟩, (⟨g⟩ : String))
      | none =>
        match p2Try s.data with
        | some gp => (pyStrip ⟨gp.2⟩, (⟨gp.1⟩ : String))
        | none => ((⟨s.data⟩ : String), "")

/-- The six components of the duplicate-identity key, in the order the
code reads them (address block then owner block). -/
def keyFields : List String :=
  ["Street Address", "City", "State", "Postal Code", "First Name", "Last Name"]

/-- _generate_unique_key: str() each component, keep only truthy
(non-empty) ones, lower-case and strip each, join with a bar.  The md5
digest of the joined string is modelled as the string itself (equal
strings hash equally; the dedup step only compares digests). -/
def genUniqueKey (r : Rec) : String :=
  joinBar
    (((keyFields.map (fun f => (getA r f (Val.str "")).toPy)).filter
        (fun p => p != "")).map (fun p => pyStrip (pyLower p)))

/-- Output slot name for the i-th phone. -/
def phoneSlot (i : Nat) : String := "Phone " ++ toString i

/-- Output slot name for the i-th email: the first slot is unnumbered. -/
def emailSlot (i : Nat) : String :=
  if i = 1 then "Email" else "Email " ++ toString i

/-- The five email output fields, as listed in the code. -/
def emailFieldsList : List String :=
  ["Email", "Email 2", "Email 3", "Email 4", "Email 5"]

/-- _has_contact_info: some phone slot truthy, or some email slot truthy,
or the mailing address truthy (Python truthiness, so the NaN sentinel
counts as present). -/
def hasContactInfo (r : Rec) : Bool :=
  ((List.range' 1 5).any fun i => (getA r (phoneSlot i) (Val.str "")).truthy)
    || (emailFieldsList.any fun f => (getA r f (Val.str "")).truthy)
    || (getA r "Mailing Address" (Val.str "")).truthy

/-- The all-empty canonical record the row transformation starts from. -/
def initRec : Rec := outputColumns.map (fun c => (c, Val.str ""))

/-- The value the direct-copy loop would assign to a canonical field:
present only when the field is in the column mapping and its mapped
source column is present in the row; the cell value is taken verbatim
(NaN included). -/
def directUpd (row : Row) (cmap : List (String × String)) (f : String) :
    Option Val :=
  (lookupA cmap f).bind fun c => lookupA row c

/-- Fold a per-field optional update over a field list, assigning into
the record only where the update is present. -/
def updFold (u : String → Option Val) (fields : List String) (init : Rec) : Rec :=
  fields.foldl
    (fun acc f =>
      match u f with
      | some v => setF acc f v
      | none => acc)
    init

/-- The direct-copy loop of _map_input_to_output over the canonical
fields in order. -/
def directPhase (row : Row) (cmap : List (String × String)) : Rec :=
  updFold (directUpd row cmap) outputColumns initRec

/-- The fixed full-name column aliases searched when no first/last name
mapping exists. -/
def fullNameFields : List String := ["Owner Name", "Owner", "Full Name", "Name"]

/-- Search the full-name aliases in the row: first field that is present
with a non-NaN value supplies the value. -/
def findFullNameAux : List String → Row → Option Val
  | [], _ => none
  | f :: fs, row =>
    match lookupA row f with
    | some v => if v.isna then findFullNameAux fs row else some v
    | none => findFullNameAux fs row

/-- The full-name search of _map_input_to_output. -/
def findFullName (row : Row) : Option Val := findFullNameAux fullNameFields row

/-- Assign the split of a discovered full-name value (if any) into the
first and last name slots; _split_name may raise. -/
def namePhaseCore (r : Rec) : Option Val → Except Unit Rec
  | some v => do
    let fl ← splitName v
    pure (setF (setF r "First Name" (Val.str fl.1)) "Last Name" (Val.str fl.2))
  | none => .ok r

/-- The combined-name special case: only when the column mapping has
neither a First Name nor a Last Name entry, split the first discovered
full-name value. -/
def namePhase (row : Row) (cmap : List (String × String)) (r : Rec) :
    Except Unit Rec :=
  if (lookupA cmap "First Name").isNone && (lookupA cmap "Last Name").isNone then
    namePhaseCore r (findFullName row)
  else .ok r

/-- Unit extraction for the property address: only when the unit slot is
falsy and the street address truthy, and only if a unit token was
actually captured. -/
def unitPhaseStreet (r : Rec) : Rec :=
  if !(getA r "Unit #" (Val.str "")).truthy
      && (getA r "Street Address" (Val.str "")).truthy then
    if (extractUnit (getA r "Street Address" (Val.str ""))).2 != "" then
      setF
        (setF r "Street Address"
          (Val.str (extractUnit (getA r "Street Address" (Val.str ""))).1))
        "Unit #" (Val.str (extractUnit (getA r "Street Address" (Val.str ""))).2)
    else r
  else r

/-- Unit extraction for the mailing address, same procedure. -/
def unitPhaseMailing (r : Rec) : Rec :=
  if !(getA r "Mailing Unit #" (Val.str "")).truthy
      && (getA r "Mailing Address" (Val.str "")).truthy then
    if (extractUnit (getA r "Mailing Address" (Val.str ""))).2 != "" then
      setF
        (setF r "Mailing Address"
          (Val.str (extractUnit (getA r "Mailing Address" (Val.str ""))).1))
        "Mailing Unit #"
        (Val.str (extractUnit (getA r "Mailing Address" (Val.str ""))).2)
    else r
  else r

/-- Phone collection loop: for ordinals 1..5 whose slot is in the column
mapping, read the cell (defaulting to the empty string), keep it when
truthy and not NaN, as the pair of its ordinal and its stripped str(). -/
def collectPhones (row : Row) (cmap : List (String × String)) :
    List (Nat × String) :=
  (List.range' 1 5).filterMap fun i =>
    match lookupA cmap (phoneSlot i) with
    | some c =>
      let v := getA row c (Val.str "")
      if v.truthy && !v.isna then some (i, pyStrip v.toPy) else none
    | none => none

/-- Python tuple comparison on (ordinal, value) pairs. -/
def pairLt (a b : Nat × String) : Bool :=
  a.1 < b.1 || (a.1 == b.1 && a.2 < b.2)

/-- Stable insertion into a sorted list: skip strictly smaller elements,
land before equal ones. -/
def insSorted (x : Nat × String) : List (Nat × String) → List (Nat × String)
  | [] => [x]
  | y :: ys => if pairLt y x then y :: insSorted x ys else x :: y :: ys

/-- Python sorted() on pairs: stable sort by tuple comparison. -/
def pySorted : List (Nat × String) → List (Nat × String)
  | [] => []
  | x :: xs => insSorted x (pySorted xs)

/-- The fill loop shared by phones and emails: enumerate the sorted pairs
from 1 and assign each value to its slot while the running index is at
most 5. -/
def fillSlots (slotF : Nat → String) : Rec → Nat → List (Nat × String) → Rec
  | r, _, [] => r
  | r, i, p :: ps =>
    if i ≤ 5 then fillSlots slotF (setF r (slotF i) (Val.str p.2)) (i + 1) ps
    else fillSlots slotF r (i + 1) ps

/-- The reset loop: blank the given output slots before re-filling. -/
def resetSlots (fields : List String) (r : Rec) : Rec :=
  fields.foldl (fun acc f => setF acc f (Val.str "")) r

/-- The phone compaction pass of _map_input_to_output. -/
def phonePhase (row : Row) (cmap : List (String × String)) (r : Rec) : Rec :=
  fillSlots phoneSlot
    (resetSlots ((List.range' 1 5).map phoneSlot) r) 1
    (pySorted (collectPhones row cmap))

/-- The ordinal of an email mapping key: the literal key Email is 1,
otherwise re.search for the text Email-space-digits inside the key (at
its leftmost occurrence) and int() the digits; no match defaults to 1. -/
def findEmailNumAux : List Char → Option Nat
  | [] => none
  | c :: cs =>
    if isPfxL "Email ".data (c :: cs) then
      let r := (c :: cs).drop 6
      let ds := r.takeWhile Char.isDigit
      if ds = [] then findEmailNumAux cs else some (digitsVal ds)
    else findEmailNumAux cs

/-- The email-key ordinal of _map_input_to_output. -/
def emailIdx (k : String) : Nat :=
  if k = "Email" then 1
  else
    match findEmailNumAux k.data with
    | some n => n
    | none => 1

/-- Email collection loop: every column-mapping key starting with Email,
in mapping order, with the same truthiness and NaN filter as phones. -/
def collectEmails (row : Row) (cmap : List (String × String)) :
    List (Nat × String) :=
  cmap.filterMap fun kc =>
    if strHasPfx "Email" kc.1 then
      let v := getA row kc.2 (Val.str "")
      if v.truthy && !v.isna then some (emailIdx kc.1, pyStrip v.toPy) else none
    else none

/-- The email compaction pass of _map_input_to_output. -/
def emailPhase (row : Row) (cmap : List (String × String)) (r : Rec) : Rec :=
  fillSlots emailSlot (resetSlots emailFieldsList r) 1
    (pySorted (collectEmails row cmap))

/-- _map_input_to_output: direct copies, combined-name handling (the only
step that can raise), unit extraction for both addresses, then phone and
email compaction. -/
def mapInputToOutput (row : Row) (cmap : List (String × String)) :
    Except Unit Rec := do
  let r0 := directPhase row cmap
  let r1 ← namePhase row cmap r0
  let r2 := unitPhaseStreet r1
  let r3 := unitPhaseMailing r2
  let r4 := phonePhase row cmap r3
  pure (emailPhase row cmap r4)

/-- A DataFrame: its column list and its rows (each row an ordered
field-to-value dict). -/
structure DFrame where
  cols : List String
  rows : List Rec
  deriving DecidableEq

/-- process_file_content after parsing: build the column mapping for this
table, transform each row in order (any raised exception is caught at
file level and yields the empty canonical frame), and keep only rows with
contact info.  A nonempty kept list forms a frame whose columns are the
canonical fields (the keys of the record dicts); an empty kept list forms
the columnless empty DataFrame.  Rows are transformed in order by
mapRows, which stops at the first raised exception. -/
def mapRows (cmap : List (String × String)) : List Row → Except Unit (List Rec)
  | [] => .ok []
  | row :: rest => do
    let r ← mapInputToOutput row cmap
    let rs ← mapRows cmap rest
    pure (r :: rs)

/-- The DataFrame a single file contributes: a raised exception is caught
and yields the empty canonical frame; otherwise the contact-filtered rows
(a columnless empty frame when none survive, as pd.DataFrame of an empty
list has no columns). -/
def fileFrame : Except Unit (List Rec) → DFrame
  | .error _ => ⟨outputColumns, []⟩
  | .ok recs =>
    if (recs.filter hasContactInfo).isEmpty then ⟨[], []⟩
    else ⟨outputColumns, recs.filter hasContactInfo⟩

def processFileContent (cols : List String) (rows : List Row) : DFrame :=
  fileFrame (mapRows (createColumnMapping cols) rows)

/-- drop_duplicates keep-first over the computed duplicate-identity keys:
a record whose key was already seen is dropped whole. -/
def dedupAux : List String → List Rec → List Rec
  | _, [] => []
  | seen, r :: rs =>
    if seen.contains (genUniqueKey r) then dedupAux seen rs
    else r :: dedupAux (genUniqueKey r :: seen) rs

/-- drop_duplicates keep-first on the combined record list. -/
def dedupByKey (rs : List Rec) : List Rec := dedupAux [] rs

/-- The output-shaping tail of _combine_and_deduplicate: every canonical
column present (missing ones filled with the empty string) and the
columns selected in canonical order. -/
def canonicalShape (r : Rec) : Rec :=
  outputColumns.map (fun c => (c, getA r c (Val.str "")))

/-- _combine_and_deduplicate: an empty frame list yields the empty
canonical frame; otherwise concatenate all rows in order, deduplicate
keep-first by identity key, and shape to the canonical columns. -/
def combineAndDedup (dfs : List DFrame) : DFrame :=
  match dfs with
  | [] => ⟨outputColumns, []⟩
  | _ :: _ =>
    ⟨outputColumns, (dedupByKey ((dfs.map DFrame.rows).flatten)).map canonicalShape⟩

/-- process_memory_files: process each file in order, keep only nonempty
frames, and combine-and-deduplicate. -/
def processMemoryFiles (files : List (List String × List Row)) : DFrame :=
  combineAndDedup
    (((files.map fun f => processFileContent f.1 f.2).filter
        fun d => !d.rows.isEmpty))

/-- Whether a cell value is a non-empty string; used by the
specification-side contact predicate. -/
def nonemptyStr : Val → Bool
  | .str s => s != ""
  | .nan => false

/-- Modelled from the claim text of C4 for refinement comparison: at
least one of the five phone slots is a non-empty string, or at least one
of the five email slots is a non-empty string, or the mailing-address
slot is a non-empty string. -/
def specHasContactInfo (r : Rec) : Bool :=
  ((List.range' 1 5).any fun i => nonemptyStr (getA r (phoneSlot i) (Val.str "")))
    || (emailFieldsList.any fun f => nonemptyStr (getA r f (Val.str "")))
    || nonemptyStr (getA r "Mailing Address" (Val.str ""))

/-! ## Concrete inputs used by the claim analyses -/

/-- Unwrap a successful row transformation (used only at concrete inputs
where the transformation is known to succeed). -/
def okOr : Except Unit Rec → Rec
  | .ok r => r
  | .error _ => []

/-- Spec-side phone slot assignment: the j-th value of the ordinal-sorted
collected phone pairs, the empty string past the end (slots were reset). -/
def specPhoneAt (row : Row) (cmap : List (String × String)) (j : Nat) : String :=
  ((pySorted (collectPhones row cmap)).map Prod.snd).getD (j - 1) ""

/-- Spec-side email slot assignment, same compaction policy over the
collected email pairs. -/
def specEmailAt (row : Row) (cmap : List (String × String)) (j : Nat) : String :=
  ((pySorted (collectEmails row cmap)).map Prod.snd).getD (j - 1) ""

/-- One uploaded table whose City cell is the NaN sentinel and whose
phone cell is populated. -/
def c1files : List (List String × List Row) :=
  [(["City", "Phone 1"], [[("City", Val.nan), ("Phone 1", Val.str "555")]])]

/-- A record whose City slot holds a whitespace-only string. -/
def c3recA : Rec :=
  canonicalShape
    [("Street Address", Val.str "1 Elm"), ("City", Val.str " "),
     ("Phone 1", Val.str "555")]

/-- The same record with an empty City slot instead. -/
def c3recB : Rec :=
  canonicalShape
    [("Street Address", Val.str "1 Elm"), ("Phone 1", Val.str "555")]

/-- Two records with identical key components, differing in a phone. -/
def c3recC : Rec :=
  canonicalShape
    [("Street Address", Val.str "1 Elm"), ("City", Val.str "Springfield"),
     ("Phone 1", Val.str "1")]

def c3recD : Rec :=
  canonicalShape
    [("Street Address", Val.str "1 Elm"), ("City", Val.str "Springfield"),
     ("Phone 1", Val.str "2")]

/-- One uploaded table whose only populated cell is a NaN mailing
address. -/
def c4files : List (List String × List Row) :=
  [(["Mailing Address"], [[("Mailing Address", Val.nan)]])]

/-- A row and column mapping whose phone value carries surrounding
whitespace. -/
def c5row : Row := [("P", Val.str " 555 ")]

def c5cmap : List (String × String) := [("Phone 1", "P")]

def c5rec : Rec := okOr (mapInputToOutput c5row c5cmap)

/-- A row whose full name is discovered through the Owner Name alias. -/
def c6row : Row := [("Owner Name", Val.str "Mary Jane Watson")]

def c6rec : Rec := okOr (mapInputToOutput c6row [])

/-- A row whose street address carries a unit designator. -/
def c7row : Row := [("A", Val.str "123 Main St Apt 4B")]

def c7cmap : List (String × String) := [("Street Address", "A")]

def c7rec : Rec := okOr (mapInputToOutput c7row c7cmap)

/-- One uploaded table with no contact information at all. -/
def c9files : List (List String × List Row) :=
  [(["City"], [[("City", Val.str "Springfield")]])]

/-- A record with its locality text in the City slot and an empty State. -/
def c10recA : Rec :=
  canonicalShape
    [("Street Address", Val.str "1 Elm"), ("City", Val.str "Springfield"),
     ("Phone 1", Val.str "5")]

/-- A record with the same locality text in the State slot and an empty
City. -/
def c10recB : Rec :=
  canonicalShape
    [("Street Address", Val.str "1 Elm"), ("State", Val.str "Springfield"),
     ("Phone 1", Val.str "5")]

/-! ## Association-list lemmas -/

theorem lookupA_cons_same {κ α : Type} [DecidableEq κ]
    (k : κ) (v : α) (r : List (κ × α)) : lookupA ((k, v) :: r) k = some v := by
  simp [lookupA]

theorem lookupA_cons_ne {κ α : Type} [DecidableEq κ]
    {k q : κ} (v : α) (r : List (κ × α)) (h : k ≠ q) :
    lookupA ((k, v) :: r) q = lookupA r q := by
  simp [lookupA, h]

theorem lookupA_setF_same {κ α : Type} [DecidableEq κ]
    (l : List (κ × α)) (q : κ) (v : α) : lookupA (setF l q v) q = some v := by
  induction l with
  | nil => simp [setF, lookupA]
  | cons kv r ih =>
    obtain ⟨k, w⟩ := kv
    by_cases h : k = q
    · simp [setF, h, lookupA]
    · simp [setF, h, lookupA, ih]

theorem lookupA_setF_ne {κ α : Type} [DecidableEq κ]
    (l : List (κ × α)) {q f : κ} (v : α) (h : q ≠ f) :
    lookupA (setF l q v) f = lookupA l f := by
  induction l with
  | nil => simp [setF, lookupA, h]
  | cons kv r ih =>
    obtain ⟨k, w⟩ := kv
    by_cases hk : k = q
    · subst hk
      simp [setF, lookupA, h]
    · simp [setF, hk, lookupA, ih]

theorem getA_setF_same {κ α : Type} [DecidableEq κ]
    (l : List (κ × α)) (q : κ) (v d : α) : getA (setF l q v) q d = v := by
  simp [getA, lookupA_setF_same]

theorem getA_setF_ne {κ α : Type} [DecidableEq κ]
    (l : List (κ × α)) {q f : κ} (v d : α) (h : q ≠ f) :
    getA (setF l q v) f d = getA l f d := by
  simp [getA, lookupA_setF_ne _ _ h]

theorem mem_setF {κ α : Type} [DecidableEq κ]
    {l : List (κ × α)} {q : κ} {v : α} {x : κ × α} (h : x ∈ setF l q v) :
    x ∈ l ∨ x = (q, v) := by
  induction l with
  | nil => simpa [setF] using h
  | cons kv r ih =>
    obtain ⟨k, w⟩ := kv
    by_cases hk : k = q
    · subst hk
      rw [setF, if_pos rfl] at h
      rcases List.mem_cons.mp h with h1 | h1
      · right; exact h1
      · left; exact List.mem_cons_of_mem _ h1
    · rw [setF, if_neg hk] at h
      rcases List.mem_cons.mp h with h1 | h1
      · left; exact h1 ▸ List.mem_cons_self _ _
      · rcases ih h1 with h2 | h2
        · left; exact List.mem_cons_of_mem _ h2
        · right; exact h2

theorem lookupA_some_mem {κ α : Type} [DecidableEq κ]
    {l : List (κ × α)} {q : κ} {v : α} (h : lookupA l q = some v) : (q, v) ∈ l := by
  induction l with
  | nil => simp [lookupA] at h
  | cons kv r ih =>
    obtain ⟨k, w⟩ := kv
    by_cases hk : k = q
    · subst hk
      rw [lookupA_cons_same] at h
      obtain rfl : w = v := Option.some_inj.mp h
      exact List.mem_cons_self _ _
    · rw [lookupA_cons_ne _ _ hk] at h
      exact List.mem_cons_of_mem _ (ih h)

theorem lookupA_map_self {α : Type} {cols : List String} {f : String}
    (g : String → α) (h : f ∈ cols) :
    lookupA (cols.map fun c => (c, g c)) f = some (g f) := by
  induction cols with
  | nil => simp at h
  | cons c cs ih =>
    by_cases hc : c = f
    · subst hc
      simp [lookupA]
    · rcases List.mem_cons.mp h with h1 | h1
      · exact absurd h1.symm hc
      · simp [lookupA, hc, ih h1]

theorem canonicalShape_fst (r : Rec) :
    (canonicalShape r).map Prod.fst = outputColumns := by
  simp [canonicalShape, List.map_map, Function.comp_def]

theorem getA_canonicalShape {f : String} (r : Rec) (d : Val)
    (h : f ∈ outputColumns) :
    getA (canonicalShape r) f d = getA r f (Val.str "") := by
  simp [canonicalShape, getA, lookupA_map_self _ h]

theorem getA_initRec {f : String} (d : Val) (h : f ∈ outputColumns) :
    getA initRec f d = Val.str "" := by
  simp [initRec, getA, lookupA_map_self _ h]

/-! ## Fold lemmas -/

theorem foldl_inv_mem {α β : Type} {P : β → Prop} {step : β → α → β}
    {l : List α} {init : β} (h0 : P init)
    (hstep : ∀ acc x, x ∈ l → P acc → P (step acc x)) : P (l.foldl step init) := by
  induction l generalizing init with
  | nil => simpa using h0
  | cons x xs ih =>
    simp only [List.foldl_cons]
    exact ih (hstep init x (by simp) h0)
      (fun acc y hy hacc => hstep acc y (by simp [hy]) hacc)

theorem updFold_get_notmem (u : String → Option Val) (fields : List String)
    (init : Rec) (f : String) (d : Val) (h : f ∉ fields) :
    getA (updFold u fields init) f d = getA init f d := by
  induction fields generalizing init with
  | nil => simp [updFold]
  | cons g gs ih =>
    have hgf : g ≠ f := fun hc => h (by simp [hc])
    have hfs : f ∉ gs := fun hc => h (by simp [hc])
    rw [updFold, List.foldl_cons]
    cases hu : u g with
    | none =>
      simpa [updFold, hu] using ih init hfs
    | some v =>
      have h2 := ih (setF init g v) hfs
      rw [updFold] at h2
      simp only [hu]
      rw [h2, getA_setF_ne _ _ _ hgf]

theorem updFold_get (u : String → Option Val) (fields : List String)
    (init : Rec) (f : String) (d : Val) (hnd : fields.Nodup) (h : f ∈ fields) :
    getA (updFold u fields init) f d = (u f).getD (getA init f d) := by
  induction fields generalizing init with
  | nil => simp at h
  | cons g gs ih =>
    have hnd2 : gs.Nodup := (List.nodup_cons.mp hnd).2
    by_cases hgf : g = f
    · subst hgf
      have hfs : g ∉ gs := (List.nodup_cons.mp hnd).1
      rw [updFold, List.foldl_cons]
      cases hu : u g with
      | none =>
        have h2 := updFold_get_notmem u gs init g d hfs
        rw [updFold] at h2
        simpa [hu] using h2
      | some v =>
        have h2 := updFold_get_notmem u gs (setF init g v) g d hfs
        rw [updFold] at h2
        simp only [hu]
        rw [h2, getA_setF_same]
        rfl
    · have hfs : f ∈ gs := by
        rcases List.mem_cons.mp h with h1 | h1
        · exact absurd h1.symm hgf
        · exact h1
      rw [updFold, List.foldl_cons]
      cases hu : u g with
      | none =>
        simpa [updFold, hu] using ih init hnd2 hfs
      | some v =>
        have h2 := ih (setF init g v) hnd2 hfs
        rw [updFold] at h2
        simp only [hu]
        rw [h2, getA_setF_ne _ _ _ hgf]

theorem outputColumns_nodup : outputColumns.Nodup := by decide

theorem directPhase_get {row : Row} {cmap : List (String × String)}
    {f : String} (d : Val) (h : f ∈ outputColumns) :
    getA (directPhase row cmap) f d = (directUpd row cmap f).getD (Val.str "") := by
  rw [directPhase, updFold_get _ _ _ _ d outputColumns_nodup h, getA_initRec d h]

/-! ## Reset and fill lemmas -/

theorem getA_resetSlots_notmem (fields : List String) (r : Rec) (f : String)
    (d : Val) (h : f ∉ fields) : getA (resetSlots fields r) f d = getA r f d := by
  induction fields generalizing r with
  | nil => simp [resetSlots]
  | cons g gs ih =>
    have hgf : g ≠ f := fun hc => h (by simp [hc])
    have hfs : f ∉ gs := fun hc => h (by simp [hc])
    have h2 := ih (setF r g (Val.str ""))
    rw [resetSlots] at h2 ⊢
    rw [List.foldl_cons, h2 hfs, getA_setF_ne _ _ _ hgf]

theorem getA_resetSlots_mem (fields : List String) (r : Rec) (f : String)
    (d : Val) (h : f ∈ fields) : getA (resetSlots fields r) f d = Val.str "" := by
  induction fields generalizing r with
  | nil => simp at h
  | cons g gs ih =>
    rw [resetSlots, List.foldl_cons]
    by_cases hfs : f ∈ gs
    · exact ih (setF r g (Val.str "")) hfs
    · have hgf : g = f := by
        rcases List.mem_cons.mp h with h1 | h1
        · exact h1.symm
        · exact absurd h1 hfs
      subst hgf
      have h2 := getA_resetSlots_notmem gs (setF r g (Val.str "")) g d hfs
      rw [resetSlots] at h2
      rw [h2, getA_setF_same]

theorem fillSlots_get_notin (slotF : Nat → String) (ps : List (Nat × String))
    (r : Rec) (i : Nat) (f : String) (d : Val)
    (hne : ∀ k, k ≤ 5 → slotF k ≠ f) :
    getA (fillSlots slotF r i ps) f d = getA r f d := by
  induction ps generalizing r i with
  | nil => simp [fillSlots]
  | cons p ps ih =>
    rw [fillSlots]
    by_cases hi : i ≤ 5
    · rw [if_pos hi, ih, getA_setF_ne _ _ _ (hne i hi)]
    · rw [if_neg hi, ih]

theorem fillSlots_get_lt (slotF : Nat → String) (ps : List (Nat × String))
    (r : Rec) (i j : Nat) (d : Val) (hji : j < i)
    (hinj : ∀ k, k ≤ 5 → k ≠ j → slotF k ≠ slotF j) :
    getA (fillSlots slotF r i ps) (slotF j) d = getA r (slotF j) d := by
  induction ps generalizing r i with
  | nil => simp [fillSlots]
  | cons p ps ih =>
    rw [fillSlots]
    by_cases hi : i ≤ 5
    · have hij : i ≠ j := by omega
      rw [if_pos hi, ih _ _ (by omega), getA_setF_ne _ _ _ (hinj i hi hij)]
    · rw [if_neg hi, ih _ _ (by omega)]

theorem fillSlots_get (slotF : Nat → String) (ps : List (Nat × String))
    (r : Rec) (i j : Nat) (d : Val) (h1 : 1 ≤ i) (hij : i ≤ j) (hj5 : j ≤ 5)
    (hinj : ∀ k, k ≤ 5 → k ≠ j → slotF k ≠ slotF j) :
    getA (fillSlots slotF r i ps) (slotF j) d =
      if j - i < ps.length then Val.str ((ps.map Prod.snd).getD (j - i) "")
      else getA r (slotF j) d := by
  induction ps generalizing r i with
  | nil => simp [fillSlots]
  | cons p ps ih =>
    have hi : i ≤ 5 := le_trans hij hj5
    rw [fillSlots, if_pos hi]
    by_cases hje : i = j
    · subst hje
      have hlt := fillSlots_get_lt slotF ps (setF r (slotF i) (Val.str p.2))
        (i + 1) i d (by omega) hinj
      rw [hlt, getA_setF_same]
      simp
    · have hij2 : i + 1 ≤ j := by omega
      rw [ih _ _ (by omega) hij2]
      obtain ⟨k, hk⟩ : ∃ k, j - i = k + 1 := ⟨j - i - 1, by omega⟩
      have hk2 : j - (i + 1) = k := by omega
      rw [hk, hk2]
      simp only [List.length_cons, List.map_cons]
      by_cases hlen : k < ps.length
      · rw [if_pos hlen, if_pos (by omega), List.getD_cons_succ]
      · rw [if_neg hlen, if_neg (by omega), getA_setF_ne _ _ _ (hinj i hi hje)]

theorem mem_of_le5 : ∀ k : Nat, k ≤ 5 → k ∈ [0, 1, 2, 3, 4, 5] := by
  intro k h
  interval_cases k <;> simp

theorem phoneSlot_inj : ∀ k ∈ [0, 1, 2, 3, 4, 5], ∀ j ∈ [0, 1, 2, 3, 4, 5],
    k ≠ j → phoneSlot k ≠ phoneSlot j := by decide

theorem emailSlot_inj : ∀ k ∈ [0, 1, 2, 3, 4, 5], ∀ j ∈ [0, 1, 2, 3, 4, 5],
    k ≠ j → emailSlot k ≠ emailSlot j := by decide

theorem phoneSlot_inj5 {k j : Nat} (hk : k ≤ 5) (hj : j ≤ 5) (hkj : k ≠ j) :
    phoneSlot k ≠ phoneSlot j :=
  phoneSlot_inj k (mem_of_le5 k hk) j (mem_of_le5 j hj) hkj

theorem emailSlot_inj5 {k j : Nat} (hk : k ≤ 5) (hj : j ≤ 5) (hkj : k ≠ j) :
    emailSlot k ≠ emailSlot j :=
  emailSlot_inj k (mem_of_le5 k hk) j (mem_of_le5 j hj) hkj

theorem phoneFieldsEq :
    (List.range' 1 5).map phoneSlot =
      ["Phone 1", "Phone 2", "Phone 3", "Phone 4", "Phone 5"] := by decide

theorem emailFieldsEq : (List.range' 1 5).map emailSlot = emailFieldsList := by
  decide

theorem phonePhase_get (row : Row) (cmap : List (String × String)) (r : Rec)
    (j : Nat) (d : Val) (h1 : 1 ≤ j) (hj : j ≤ 5) :
    getA (phonePhase row cmap r) (phoneSlot j) d =
      Val.str (((pySorted (collectPhones row cmap)).map Prod.snd).getD (j - 1) "") := by
  rw [phonePhase, fillSlots_get _ _ _ _ _ _ (le_refl 1) h1 hj
    (fun k hk hkj => phoneSlot_inj5 hk hj hkj)]
  by_cases hlen : j - 1 < (pySorted (collectPhones row cmap)).length
  · rw [if_pos hlen]
  · rw [if_neg hlen]
    rw [getA_resetSlots_mem _ _ _ _
      (List.mem_map_of_mem phoneSlot (by
        rw [List.mem_range'_1]
        omega))]
    rw [List.getD_eq_default]
    simp only [List.length_map]
    omega

theorem emailPhase_get (row : Row) (cmap : List (String × String)) (r : Rec)
    (j : Nat) (d : Val) (h1 : 1 ≤ j) (hj : j ≤ 5) :
    getA (emailPhase row cmap r) (emailSlot j) d =
      Val.str (((pySorted (collectEmails row cmap)).map Prod.snd).getD (j - 1) "") := by
  rw [emailPhase, fillSlots_get _ _ _ _ _ _ (le_refl 1) h1 hj
    (fun k hk hkj => emailSlot_inj5 hk hj hkj)]
  by_cases hlen : j - 1 < (pySorted (collectEmails row cmap)).length
  · rw [if_pos hlen]
  · rw [if_neg hlen]
    rw [getA_resetSlots_mem _ _ _ _ (by
      rw [← emailFieldsEq]
      exact List.mem_map_of_mem emailSlot (by
        rw [List.mem_range'_1]
        omega))]
    rw [List.getD_eq_default]
    simp only [List.length_map]
    omega

theorem phonePhase_notouch (row : Row) (cmap : List (String × String)) (r : Rec)
    (f : String) (d : Val) (hne : ∀ k, k ≤ 5 → phoneSlot k ≠ f) :
    getA (phonePhase row cmap r) f d = getA r f d := by
  rw [phonePhase, fillSlots_get_notin _ _ _ _ _ _ hne,
    getA_resetSlots_notmem _ _ _ _ (by
      rw [phoneFieldsEq]
      intro hmem
      rw [← phoneFieldsEq] at hmem
      obtain ⟨k, hk, hkf⟩ := List.mem_map.mp hmem
      rw [List.mem_range'_1] at hk
      exact hne k (by omega) hkf)]

theorem emailPhase_notouch (row : Row) (cmap : List (String × String)) (r : Rec)
    (f : String) (d : Val) (hne : ∀ k, k ≤ 5 → emailSlot k ≠ f) :
    getA (emailPhase row cmap r) f d = getA r f d := by
  rw [emailPhase, fillSlots_get_notin _ _ _ _ _ _ hne,
    getA_resetSlots_notmem _ _ _ _ (by
      rw [← emailFieldsEq]
      intro hmem
      obtain ⟨k, hk, hkf⟩ := List.mem_map.mp hmem
      rw [List.mem_range'_1] at hk
      exact hne k (by omega) hkf)]

/-! ## Name and unit phase lemmas -/

theorem splitName_tokens {s t : String} {ts : List String}
    (htok : pyTokens (pyStrip s) = t :: ts) :
    splitName (Val.str s) = .ok (t, joinSpace ts) := by
  have hs : s ≠ "" := by
    intro h
    subst h
    simp [pyStrip, pyStripL, pyTokens, splitWsGo] at htok
  rw [splitName, if_neg hs, htok]
  match ts with
  | [] => rfl
  | [b] => rfl
  | b :: c :: rest => rfl

theorem namePhase_ok_preserve {row : Row} {cmap : List (String × String)}
    {r r1 : Rec} (f : String) (d : Val) (h : namePhase row cmap r = .ok r1)
    (hf : f ≠ "First Name") (hl : f ≠ "Last Name") :
    getA r1 f d = getA r f d := by
  rw [namePhase] at h
  by_cases hc : ((lookupA cmap "First Name").isNone
      && (lookupA cmap "Last Name").isNone) = true
  · rw [if_pos hc] at h
    cases hv : findFullName row with
    | none =>
      rw [hv, namePhaseCore] at h
      injection h with h
      rw [h]
    | some v =>
      rw [hv, namePhaseCore] at h
      cases hsn : splitName v with
      | error e =>
        rw [hsn] at h
        simp [Bind.bind, Except.bind] at h
      | ok fl =>
        rw [hsn] at h
        simp only [Bind.bind, Except.bind, pure, Except.pure] at h
        injection h with h
        rw [← h, getA_setF_ne _ _ _ (fun hc2 => hl hc2.symm),
          getA_setF_ne _ _ _ (fun hc2 => hf hc2.symm)]
  · rw [if_neg hc] at h
    injection h with h
    rw [h]

theorem namePhase_split {row : Row} {cmap : List (String × String)} (r : Rec)
    {s t : String} {ts : List String}
    (hf : lookupA cmap "First Name" = none)
    (hl : lookupA cmap "Last Name" = none)
    (hfind : findFullName row = some (Val.str s))
    (htok : pyTokens (pyStrip s) = t :: ts) :
    namePhase row cmap r =
      .ok (setF (setF r "First Name" (Val.str t)) "Last Name"
        (Val.str (joinSpace ts))) := by
  rw [namePhase, if_pos (by rw [hf, hl]; rfl), hfind, namePhaseCore,
    splitName_tokens htok]
  rfl

theorem namePhase_skip {row : Row} {cmap : List (String × String)} (r : Rec)
    (h : ¬ ((lookupA cmap "First Name").isNone
      && (lookupA cmap "Last Name").isNone) = true) :
    namePhase row cmap r = .ok r := by
  rw [namePhase, if_neg h]

theorem unitPhaseStreet_notouch (r : Rec) (f : String) (d : Val)
    (h1 : f ≠ "Street Address") (h2 : f ≠ "Unit #") :
    getA (unitPhaseStreet r) f d = getA r f d := by
  rw [unitPhaseStreet]
  split_ifs with hA hB
  · rw [getA_setF_ne _ _ _ (fun hc => h2 hc.symm),
      getA_setF_ne _ _ _ (fun hc => h1 hc.symm)]
  · rfl
  · rfl

theorem unitPhaseMailing_notouch (r : Rec) (f : String) (d : Val)
    (h1 : f ≠ "Mailing Address") (h2 : f ≠ "Mailing Unit #") :
    getA (unitPhaseMailing r) f d = getA r f d := by
  rw [unitPhaseMailing]
  split_ifs with hA hB
  · rw [getA_setF_ne _ _ _ (fun hc => h2 hc.symm),
      getA_setF_ne _ _ _ (fun hc => h1 hc.symm)]
  · rfl
  · rfl

theorem unitPhaseStreet_char (r : Rec) {a : String}
    (hu : getA r "Unit #" (Val.str "") = Val.str "")
    (ha : getA r "Street Address" (Val.str "") = Val.str a) (hne : a ≠ "") :
    (getA (unitPhaseStreet r) "Street Address" (Val.str ""),
        getA (unitPhaseStreet r) "Unit #" (Val.str "")) =
      if (extractUnit (Val.str a)).2 ≠ "" then
        (Val.str (extractUnit (Val.str a)).1, Val.str (extractUnit (Val.str a)).2)
      else (Val.str a, Val.str "") := by
  have hcond : (!(getA r "Unit #" (Val.str "")).truthy
      && (getA r "Street Address" (Val.str "")).truthy) = true := by
    rw [hu, ha]
    simp [Val.truthy, hne]
  rw [unitPhaseStreet, if_pos hcond, ha]
  by_cases hx : (extractUnit (Val.str a)).2 ≠ ""
  · rw [if_pos (by simpa using hx), if_pos hx]
    rw [getA_setF_same, getA_setF_ne _ _ _ (by decide), getA_setF_same]
  · rw [if_neg (by simpa using hx), if_neg hx, hu, ha]

theorem unitPhaseMailing_char (r : Rec) {a : String}
    (hu : getA r "Mailing Unit #" (Val.str "") = Val.str "")
    (ha : getA r "Mailing Address" (Val.str "") = Val.str a) (hne : a ≠ "") :
    (getA (unitPhaseMailing r) "Mailing Address" (Val.str ""),
        getA (unitPhaseMailing r) "Mailing Unit #" (Val.str "")) =
      if (extractUnit (Val.str a)).2 ≠ "" then
        (Val.str (extractUnit (Val.str a)).1, Val.str (extractUnit (Val.str a)).2)
      else (Val.str a, Val.str "") := by
  have hcond : (!(getA r "Mailing Unit #" (Val.str "")).truthy
      && (getA r "Mailing Address" (Val.str "")).truthy) = true := by
    rw [hu, ha]
    simp [Val.truthy, hne]
  rw [unitPhaseMailing, if_pos hcond, ha]
  by_cases hx : (extractUnit (Val.str a)).2 ≠ ""
  · rw [if_pos (by simpa using hx), if_pos hx]
    rw [getA_setF_same, getA_setF_ne _ _ _ (by decide), getA_setF_same]
  · rw [if_neg (by simpa using hx), if_neg hx, hu, ha]

theorem mapInputToOutput_ok {row : Row} {cmap : List (String × String)}
    {rec : Rec} (h : mapInputToOutput row cmap = .ok rec) :
    ∃ r1, namePhase row cmap (directPhase row cmap) = .ok r1 ∧
      rec = emailPhase row cmap
        (phonePhase row cmap (unitPhaseMailing (unitPhaseStreet r1))) := by
  rw [mapInputToOutput] at h
  cases hn : namePhase row cmap (directPhase row cmap) with
  | error e =>
    rw [hn] at h
    simp [Bind.bind, Except.bind] at h
  | ok r1 =>
    rw [hn] at h
    simp only [Bind.bind, Except.bind, pure, Except.pure] at h
    injection h with h
    exact ⟨r1, rfl, h.symm⟩

/-! ## Deduplication lemmas -/

theorem contains_iff_mem (l : List String) (s : String) :
    l.contains s = true ↔ s ∈ l := by
  induction l with
  | nil => simp
  | cons x xs ih => simp [List.contains]

theorem dedupAux_subset {seen : List String} {rs : List Rec} {r : Rec}
    (h : r ∈ dedupAux seen rs) : r ∈ rs := by
  induction rs generalizing seen with
  | nil => simp [dedupAux] at h
  | cons x xs ih =>
    rw [dedupAux] at h
    by_cases hc : seen.contains (genUniqueKey x) = true
    · rw [if_pos hc] at h
      exact List.mem_cons_of_mem _ (ih h)
    · rw [if_neg hc] at h
      rcases List.mem_cons.mp h with h1 | h1
      · exact h1 ▸ List.mem_cons_self _ _
      · exact List.mem_cons_of_mem _ (ih h1)

theorem dedupAux_drop (seen : List String) (l2 : List Rec) (b : Rec)
    (l3 : List Rec) (h : genUniqueKey b ∈ seen) :
    dedupAux seen (l2 ++ b :: l3) = dedupAux seen (l2 ++ l3) := by
  induction l2 generalizing seen with
  | nil =>
    simp only [List.nil_append]
    rw [dedupAux, if_pos ((contains_iff_mem _ _).mpr h)]
  | cons x xs ih =>
    simp only [List.cons_append]
    rw [dedupAux, dedupAux]
    by_cases hc : seen.contains (genUniqueKey x) = true
    · rw [if_pos hc, if_pos hc, ih _ h]
    · rw [if_neg hc, if_neg hc, ih _ (List.mem_cons_of_mem _ h)]

theorem dedupAux_erase (seen : List String) (l1 : List Rec) (a : Rec)
    (l2 : List Rec) (b : Rec) (l3 : List Rec)
    (hk : genUniqueKey a = genUniqueKey b) :
    dedupAux seen (l1 ++ a :: l2 ++ b :: l3) =
      dedupAux seen (l1 ++ a :: l2 ++ l3) := by
  induction l1 generalizing seen with
  | nil =>
    simp only [List.nil_append, dedupAux, List.append_eq]
    by_cases hc : seen.contains (genUniqueKey a) = true
    · rw [if_pos hc, if_pos hc]
      exact dedupAux_drop _ _ _ _ (hk ▸ (contains_iff_mem _ _).mp hc)
    · rw [if_neg hc, if_neg hc]
      rw [dedupAux_drop _ _ _ _ (by rw [← hk]; exact List.mem_cons_self _ _)]
  | cons x xs ih =>
    simp only [List.cons_append]
    rw [dedupAux, dedupAux]
    by_cases hc : seen.contains (genUniqueKey x) = true
    · rw [if_pos hc, if_pos hc, ih]
    · rw [if_neg hc, if_neg hc, ih]

theorem dedupAux_first_mem (seen : List String) (l1 : List Rec) (a : Rec)
    (l2 : List Rec) (hs : genUniqueKey a ∉ seen)
    (h1 : ∀ x ∈ l1, genUniqueKey x ≠ genUniqueKey a) :
    a ∈ dedupAux seen (l1 ++ a :: l2) := by
  induction l1 generalizing seen with
  | nil =>
    simp only [List.nil_append]
    rw [dedupAux, if_neg (fun hc => hs ((contains_iff_mem _ _).mp hc))]
    exact List.mem_cons_self _ _
  | cons x xs ih =>
    simp only [List.cons_append]
    rw [dedupAux]
    by_cases hc : seen.contains (genUniqueKey x) = true
    · rw [if_pos hc]
      exact ih _ hs (fun y hy => h1 y (List.mem_cons_of_mem _ hy))
    · rw [if_neg hc]
      refine List.mem_cons_of_mem _ (ih _ ?_ (fun y hy => h1 y (List.mem_cons_of_mem _ hy)))
      intro hmem
      rcases List.mem_cons.mp hmem with h2 | h2
      · exact h1 x (List.mem_cons_self _ _) h2.symm
      · exact hs h2

/-! ## Duplicate-identity key lemmas -/

theorem keyList_eq {fs : List String} {gA gB : String → String}
    (h : ∀ f ∈ fs, pyStrip (pyLower (gA f)) = pyStrip (pyLower (gB f)) ∧
      (gA f = "" ↔ gB f = "")) :
    ((fs.map gA).filter (fun p => p != "")).map (fun p => pyStrip (pyLower p)) =
      ((fs.map gB).filter (fun p => p != "")).map (fun p => pyStrip (pyLower p)) := by
  induction fs with
  | nil => rfl
  | cons f fs ih =>
    have hf := h f (List.mem_cons_self _ _)
    have hrest := ih (fun g hg => h g (List.mem_cons_of_mem _ hg))
    simp only [List.map_cons, List.filter_cons]
    by_cases hA : gA f = ""
    · have hB : gB f = "" := hf.2.mp hA
      rw [hA, hB]
      simpa using hrest
    · have hB : gB f ≠ "" := fun hc => hA (hf.2.mpr hc)
      rw [if_pos (by simpa using hA), if_pos (by simpa using hB),
        List.map_cons, List.map_cons, hf.1, hrest]

theorem genUniqueKey_eq {a b : Rec}
    (h : ∀ f ∈ keyFields,
      pyStrip (pyLower ((getA a f (Val.str "")).toPy)) =
        pyStrip (pyLower ((getA b f (Val.str "")).toPy)) ∧
      (((getA a f (Val.str "")).toPy = "") ↔ ((getA b f (Val.str "")).toPy = ""))) :
    genUniqueKey a = genUniqueKey b := by
  rw [genUniqueKey, genUniqueKey, keyList_eq h]

/-! ## Pipeline provenance lemmas -/

theorem mapRows_ok_mem {cmap : List (String × String)} {rows : List Row}
    {recs : List Rec} {r : Rec} (h : mapRows cmap rows = .ok recs)
    (hr : r ∈ recs) : ∃ row ∈ rows, mapInputToOutput row cmap = .ok r := by
  induction rows generalizing recs with
  | nil =>
    rw [mapRows] at h
    injection h with h
    subst h
    simp at hr
  | cons row rest ih =>
    rw [mapRows] at h
    cases hm : mapInputToOutput row cmap with
    | error e =>
      rw [hm] at h
      simp [Bind.bind, Except.bind] at h
    | ok r1 =>
      rw [hm] at h
      cases hrest : mapRows cmap rest with
      | error e =>
        rw [hrest] at h
        simp [Bind.bind, Except.bind] at h
      | ok rs =>
        rw [hrest] at h
        simp only [Bind.bind, Except.bind, pure, Except.pure] at h
        injection h with h
        subst h
        rcases List.mem_cons.mp hr with h1 | h1
        · exact ⟨row, List.mem_cons_self _ _, h1 ▸ hm⟩
        · obtain ⟨row2, hrow2, hmap2⟩ := ih hrest h1
          exact ⟨row2, List.mem_cons_of_mem _ hrow2, hmap2⟩

theorem processFileContent_rows_mem {cols : List String} {rows : List Row}
    {r : Rec} (h : r ∈ (processFileContent cols rows).rows) :
    hasContactInfo r = true ∧
      ∃ row ∈ rows, mapInputToOutput row (createColumnMapping cols) = .ok r := by
  rw [processFileContent] at h
  cases hm : mapRows (createColumnMapping cols) rows with
  | error e =>
    rw [hm, fileFrame] at h
    simp at h
  | ok recs =>
    rw [hm, fileFrame] at h
    by_cases hk : (recs.filter hasContactInfo).isEmpty = true
    · rw [if_pos hk] at h
      simp at h
    · rw [if_neg hk] at h
      simp only at h
      have h2 := List.mem_filter.mp h
      exact ⟨h2.2, mapRows_ok_mem hm h2.1⟩

theorem processMemoryFiles_rows {files : List (List String × List Row)} {r : Rec}
    (h : r ∈ (processMemoryFiles files).rows) :
    ∃ u, r = canonicalShape u ∧ hasContactInfo u = true ∧
      ∃ p ∈ files, ∃ row ∈ p.2,
        mapInputToOutput row (createColumnMapping p.1) = .ok u := by
  rw [processMemoryFiles] at h
  cases hd : (files.map fun f => processFileContent f.1 f.2).filter
      (fun d => !d.rows.isEmpty) with
  | nil =>
    rw [hd] at h
    simp [combineAndDedup] at h
  | cons d0 ds =>
    rw [hd] at h
    rw [combineAndDedup] at h
    simp only [DFrame.mk.injEq] at h
    obtain ⟨u, hu, hru⟩ := List.mem_map.mp h
    refine ⟨u, hru.symm, ?_⟩
    have hflat := dedupAux_subset hu
    rw [← hd] at hflat
    obtain ⟨l, hl, hul⟩ := List.mem_flatten.mp hflat
    obtain ⟨df, hdf, hdfl⟩ := List.mem_map.mp hl
    have hdf2 := (List.mem_filter.mp hdf).1
    obtain ⟨p, hp, hpd⟩ := List.mem_map.mp hdf2
    subst hpd
    rw [← hdfl] at hul
    obtain ⟨hci, row, hrow, hmap⟩ := processFileContent_rows_mem hul
    exact ⟨hci, p, hp, row, hrow, hmap⟩

/-! ## Column-mapper value lemmas -/

theorem setF_vals_sub {cols : List String} {m : List (String × String)}
    {q c : String} (hm : ∀ kv ∈ m, kv.2 ∈ cols) (hc : c ∈ cols) :
    ∀ kv ∈ setF m q c, kv.2 ∈ cols := by
  intro kv hkv
  rcases mem_setF hkv with h | h
  · exact hm kv h
  · rw [h]
    exact hc

theorem directMap_vals (cols : List String) :
    ∀ kv ∈ directMap cols, kv.2 ∈ cols := by
  rw [directMap]
  apply foldl_inv_mem (P := fun m : List (String × String) => ∀ kv : String × String, kv ∈ m → kv.2 ∈ cols) (by simp)
  intro acc fa hfa hacc
  cases hfind : fa.2.find? (fun a => cols.contains a) with
  | none => simpa [hfind] using hacc
  | some c =>
    have hc : c ∈ cols := by
      have := List.find?_some hfind
      exact (contains_iff_mem _ _).mp this
    simpa [hfind] using setF_vals_sub hacc hc

theorem findPatternCols_vals (b : Bool) (pats : List (String × String))
    (cols : List String) : ∀ kv ∈ findPatternCols b pats cols, kv.2 ∈ cols := by
  rw [findPatternCols]
  apply foldl_inv_mem (P := fun m : List (String × String) => ∀ kv : String × String, kv ∈ m → kv.2 ∈ cols) (by simp)
  intro acc col hcol hacc
  cases hp : firstPatMatch pats col with
  | none => simpa [hp] using hacc
  | some num => simpa [hp] using setF_vals_sub hacc hcol

theorem ownerScan_vals (pats : List (String × String)) (cols : List String) :
    ∀ kv ∈ ownerScan pats cols, kv.2 ∈ cols := by
  rw [ownerScan]
  apply foldl_inv_mem (P := fun m : List (Nat × String) => ∀ kv : Nat × String, kv ∈ m → kv.2 ∈ cols) (by simp)
  intro acc col hcol hacc
  cases hp : firstPatMatch pats col with
  | none => simpa [hp] using hacc
  | some num =>
    simp only [hp]
    intro kv hkv
    rcases mem_setF hkv with h | h
    · exact hacc kv h
    · rw [h]
      exact hcol

theorem updAll_vals {cols : List String} {base upd : List (String × String)}
    (hb : ∀ kv ∈ base, kv.2 ∈ cols) (hu : ∀ kv ∈ upd, kv.2 ∈ cols) :
    ∀ kv ∈ updAll base upd, kv.2 ∈ cols := by
  rw [updAll]
  apply foldl_inv_mem (P := fun m : List (String × String) => ∀ kv : String × String, kv ∈ m → kv.2 ∈ cols) hb
  intro acc kv hkv hacc
  exact setF_vals_sub hacc (hu kv hkv)

theorem ownerPromote_vals {cols : List String} {m : List (String × String)}
    {fn ln : List (Nat × String)} (hm : ∀ kv ∈ m, kv.2 ∈ cols)
    (hf : ∀ kv ∈ fn, kv.2 ∈ cols) (hl : ∀ kv ∈ ln, kv.2 ∈ cols) :
    ∀ kv ∈ ownerPromote m fn ln, kv.2 ∈ cols := by
  rw [ownerPromote]
  cases hfn : lookupA fn 1 with
  | none => exact hm
  | some fc =>
    cases hln : lookupA ln 1 with
    | none => exact hm
    | some lc =>
      have hfc : fc ∈ cols := hf _ (lookupA_some_mem hfn)
      have hlc : lc ∈ cols := hl _ (lookupA_some_mem hln)
      exact setF_vals_sub (setF_vals_sub hm hfc) hlc

theorem createColumnMapping_vals (cols : List String) :
    ∀ kv ∈ createColumnMapping cols, kv.2 ∈ cols := by
  rw [createColumnMapping]
  exact ownerPromote_vals
    (updAll_vals (updAll_vals (directMap_vals cols) (findPatternCols_vals _ _ _))
      (findPatternCols_vals _ _ _))
    (ownerScan_vals _ _) (ownerScan_vals _ _)

/-! ## Bridge lemmas -/

theorem mem_of_bounds15 : ∀ j : Nat, 1 ≤ j → j ≤ 5 → j ∈ [1, 2, 3, 4, 5] := by
  intro j h1 h2
  interval_cases j <;> simp

theorem phoneSlot_mem_aux : ∀ j ∈ [1, 2, 3, 4, 5], phoneSlot j ∈ outputColumns := by
  decide

theorem emailSlot_mem_aux : ∀ j ∈ [1, 2, 3, 4, 5], emailSlot j ∈ outputColumns := by
  decide

theorem phoneSlot_mem {j : Nat} (h1 : 1 ≤ j) (h2 : j ≤ 5) :
    phoneSlot j ∈ outputColumns :=
  phoneSlot_mem_aux j (mem_of_bounds15 j h1 h2)

theorem emailSlot_mem {j : Nat} (h1 : 1 ≤ j) (h2 : j ≤ 5) :
    emailSlot j ∈ outputColumns :=
  emailSlot_mem_aux j (mem_of_bounds15 j h1 h2)

theorem emailSlot_ne_phoneSlot_aux : ∀ k ∈ [0, 1, 2, 3, 4, 5],
    ∀ j ∈ [1, 2, 3, 4, 5], emailSlot k ≠ phoneSlot j := by decide

theorem emailSlot_ne_phoneSlot {k j : Nat} (hk : k ≤ 5) (h1 : 1 ≤ j)
    (hj : j ≤ 5) : emailSlot k ≠ phoneSlot j :=
  emailSlot_ne_phoneSlot_aux k (mem_of_le5 k hk) j (mem_of_bounds15 j h1 hj)

/-- The six fields touched by the direct special cases. -/
theorem slots_ne_special_aux : ∀ k ∈ [0, 1, 2, 3, 4, 5],
    ∀ f ∈ (["Street Address", "Unit #", "Mailing Address", "Mailing Unit #",
      "First Name", "Last Name"] : List String),
    phoneSlot k ≠ f ∧ emailSlot k ≠ f := by decide

theorem phoneSlot_ne_special {k : Nat} {f : String} (hk : k ≤ 5)
    (hf : f ∈ (["Street Address", "Unit #", "Mailing Address", "Mailing Unit #",
      "First Name", "Last Name"] : List String)) : phoneSlot k ≠ f :=
  (slots_ne_special_aux k (mem_of_le5 k hk) f hf).1

theorem emailSlot_ne_special {k : Nat} {f : String} (hk : k ≤ 5)
    (hf : f ∈ (["Street Address", "Unit #", "Mailing Address", "Mailing Unit #",
      "First Name", "Last Name"] : List String)) : emailSlot k ≠ f :=
  (slots_ne_special_aux k (mem_of_le5 k hk) f hf).2

theorem mapInputToOutput_eq_ok {row : Row} {cmap : List (String × String)}
    {r1 : Rec} (hn : namePhase row cmap (directPhase row cmap) = .ok r1) :
    mapInputToOutput row cmap =
      .ok (emailPhase row cmap
        (phonePhase row cmap (unitPhaseMailing (unitPhaseStreet r1)))) := by
  rw [mapInputToOutput, hn]
  rfl

theorem mapOut_phone {row : Row} {cmap : List (String × String)} {rec : Rec}
    (h : mapInputToOutput row cmap = .ok rec) (j : Nat) (h1 : 1 ≤ j)
    (hj : j ≤ 5) :
    getA rec (phoneSlot j) (Val.str "") = Val.str (specPhoneAt row cmap j) := by
  obtain ⟨r1, hn, hrec⟩ := mapInputToOutput_ok h
  rw [hrec, emailPhase_notouch _ _ _ _ _
    (fun k hk => emailSlot_ne_phoneSlot hk h1 hj), phonePhase_get _ _ _ _ _ h1 hj]
  rfl

theorem mapOut_email {row : Row} {cmap : List (String × String)} {rec : Rec}
    (h : mapInputToOutput row cmap = .ok rec) (j : Nat) (h1 : 1 ≤ j)
    (hj : j ≤ 5) :
    getA rec (emailSlot j) (Val.str "") = Val.str (specEmailAt row cmap j) := by
  obtain ⟨r1, hn, hrec⟩ := mapInputToOutput_ok h
  rw [hrec, emailPhase_get _ _ _ _ _ h1 hj]
  rfl

theorem hasContactInfo_canon (u : Rec) :
    hasContactInfo (canonicalShape u) = hasContactInfo u := by
  simp only [hasContactInfo]
  rw [show List.range' 1 5 = [1, 2, 3, 4, 5] from rfl]
  simp only [List.any_cons, List.any_nil, emailFieldsList]
  rw [getA_canonicalShape u _ (by decide), getA_canonicalShape u _ (by decide),
    getA_canonicalShape u _ (by decide), getA_canonicalShape u _ (by decide),
    getA_canonicalShape u _ (by decide), getA_canonicalShape u _ (by decide),
    getA_canonicalShape u _ (by decide), getA_canonicalShape u _ (by decide),
    getA_canonicalShape u _ (by decide), getA_canonicalShape u _ (by decide),
    getA_canonicalShape u _ (by decide)]

theorem streetUnit_of {row : Row} {cmap : List (String × String)} {rec : Rec}
    {c a : String} (h : mapInputToOutput row cmap = .ok rec)
    (hu : lookupA cmap "Unit #" = none)
    (hsa : lookupA cmap "Street Address" = some c)
    (hrc : lookupA row c = some (Val.str a)) (hne : a ≠ "") :
    (getA rec "Street Address" (Val.str ""), getA rec "Unit #" (Val.str "")) =
      if (extractUnit (Val.str a)).2 ≠ "" then
        (Val.str (extractUnit (Val.str a)).1, Val.str (extractUnit (Val.str a)).2)
      else (Val.str a, Val.str "") := by
  obtain ⟨r1, hn, hrec⟩ := mapInputToOutput_ok h
  have hr0sa : getA (directPhase row cmap) "Street Address" (Val.str "") =
      Val.str a := by
    rw [directPhase_get _ (by decide), directUpd, hsa, Option.some_bind, hrc]
    rfl
  have hr0u : getA (directPhase row cmap) "Unit #" (Val.str "") = Val.str "" := by
    rw [directPhase_get _ (by decide), directUpd, hu, Option.none_bind]
    rfl
  have h1sa : getA r1 "Street Address" (Val.str "") = Val.str a := by
    rw [namePhase_ok_preserve _ _ hn (by decide) (by decide), hr0sa]
  have h1u : getA r1 "Unit #" (Val.str "") = Val.str "" := by
    rw [namePhase_ok_preserve _ _ hn (by decide) (by decide), hr0u]
  have hchar := unitPhaseStreet_char r1 h1u h1sa hne
  rw [hrec]
  rw [emailPhase_notouch _ _ _ _ _
      (fun k hk => emailSlot_ne_special hk (by decide)),
    emailPhase_notouch _ _ _ _ _
      (fun k hk => emailSlot_ne_special hk (by decide)),
    phonePhase_notouch _ _ _ _ _
      (fun k hk => phoneSlot_ne_special hk (by decide)),
    phonePhase_notouch _ _ _ _ _
      (fun k hk => phoneSlot_ne_special hk (by decide)),
    unitPhaseMailing_notouch _ _ _ (by decide) (by decide),
    unitPhaseMailing_notouch _ _ _ (by decide) (by decide)]
  exact hchar

theorem mailingUnit_of {row : Row} {cmap : List (String × String)} {rec : Rec}
    {c a : String} (h : mapInputToOutput row cmap = .ok rec)
    (hu : lookupA cmap "Mailing Unit #" = none)
    (hsa : lookupA cmap "Mailing Address" = some c)
    (hrc : lookupA row c = some (Val.str a)) (hne : a ≠ "") :
    (getA rec "Mailing Address" (Val.str ""),
        getA rec "Mailing Unit #" (Val.str "")) =
      if (extractUnit (Val.str a)).2 ≠ "" then
        (Val.str (extractUnit (Val.str a)).1, Val.str (extractUnit (Val.str a)).2)
      else (Val.str a, Val.str "") := by
  obtain ⟨r1, hn, hrec⟩ := mapInputToOutput_ok h
  have hr0sa : getA (directPhase row cmap) "Mailing Address" (Val.str "") =
      Val.str a := by
    rw [directPhase_get _ (by decide), directUpd, hsa, Option.some_bind, hrc]
    rfl
  have hr0u : getA (directPhase row cmap) "Mailing Unit #" (Val.str "") =
      Val.str "" := by
    rw [directPhase_get _ (by decide), directUpd, hu, Option.none_bind]
    rfl
  have h2sa : getA (unitPhaseStreet r1) "Mailing Address" (Val.str "") =
      Val.str a := by
    rw [unitPhaseStreet_notouch _ _ _ (by decide) (by decide),
      namePhase_ok_preserve _ _ hn (by decide) (by decide), hr0sa]
  have h2u : getA (unitPhaseStreet r1) "Mailing Unit #" (Val.str "") =
      Val.str "" := by
    rw [unitPhaseStreet_notouch _ _ _ (by decide) (by decide),
      namePhase_ok_preserve _ _ hn (by decide) (by decide), hr0u]
  have hchar := unitPhaseMailing_char (unitPhaseStreet r1) h2u h2sa hne
  rw [hrec]
  rw [emailPhase_notouch _ _ _ _ _
      (fun k hk => emailSlot_ne_special hk (by decide)),
    emailPhase_notouch _ _ _ _ _
      (fun k hk => emailSlot_ne_special hk (by decide)),
    phonePhase_notouch _ _ _ _ _
      (fun k hk => phoneSlot_ne_special hk (by decide)),
    phonePhase_notouch _ _ _ _ _
      (fun k hk => phoneSlot_ne_special hk (by decide))]
  exact hchar

/-! ## Claim theorems -/

/-- Claim C1, counterexample: the combined output of a table whose City
cell is the NaN sentinel (and which passes the contact filter through its
phone) contains a record whose City value is NaN, not a string — refuting
the claim that every field value of every output record is a string. -/
theorem claim_C1_counterexample :
    (processMemoryFiles c1files).rows.map (fun r => getA r "City" (Val.str "")) =
      [Val.nan] ∧
    ¬ (∀ r ∈ (processMemoryFiles c1files).rows, ∀ kv ∈ r, isStrVal kv.2 = true) := by
  decide

/-- Claim C1, amended: every record of every combined-and-deduplicated
output has exactly the 27 canonical fields in canonical order, and the
phone and email slots always hold strings; direct-mapped fields, however,
may carry the NaN sentinel verbatim (see the counterexample). -/
theorem claim_C1 : ∀ (files : List (List String × List Row)) (r : Rec),
    r ∈ (processMemoryFiles files).rows →
    r.map Prod.fst = outputColumns ∧
    ∀ j, 1 ≤ j → j ≤ 5 →
      isStrVal (getA r (phoneSlot j) (Val.str "")) = true ∧
      isStrVal (getA r (emailSlot j) (Val.str "")) = true := by
  intro files r hr
  obtain ⟨u, hru, hci, p, hp, row, hrow, hmap⟩ := processMemoryFiles_rows hr
  subst hru
  refine ⟨canonicalShape_fst u, fun j h1 hj => ?_⟩
  rw [getA_canonicalShape u _ (phoneSlot_mem h1 hj),
    getA_canonicalShape u _ (emailSlot_mem h1 hj),
    mapOut_phone hmap j h1 hj, mapOut_email hmap j h1 hj]
  exact ⟨rfl, rfl⟩

/-- Claim C1, witness: the theorem applied to the concrete one-table
input with a NaN City cell. -/
theorem claim_C1_witness :
    ((processMemoryFiles c1files).rows.getD 0 []).map Prod.fst = outputColumns ∧
    isStrVal (getA ((processMemoryFiles c1files).rows.getD 0 [])
      (phoneSlot 1) (Val.str "")) = true :=
  ⟨(claim_C1 c1files _ (by decide)).1,
   ((claim_C1 c1files _ (by decide)).2 1 (by decide) (by decide)).1⟩

/-- Claim C2: the per-row transformation raises (IndexError inside
_split_name) on a row whose only full-name cell is whitespace-only, when
the column mapping has no first/last name entry — the claim that the
transformation never raises for a missing or malformed value is refuted
by the code; _split_name's own guard shows totality was the intent. -/
theorem claim_C2 :
    mapInputToOutput [("Owner Name", Val.str "   ")] [] = .error () := by decide

/-- Claim C3, counterexample: two records whose six key components are
pairwise identical after lower-casing and trimming (City is a single
space in one record and empty in the other) receive different
duplicate-identity keys, because the key drops raw-empty components
before joining; both records survive deduplication, refuting the claim
that only the earliest appears. -/
theorem claim_C3_counterexample :
    (∀ f ∈ keyFields,
      pyStrip (pyLower ((getA c3recA f (Val.str "")).toPy)) =
        pyStrip (pyLower ((getA c3recB f (Val.str "")).toPy))) ∧
    (combineAndDedup [⟨outputColumns, [c3recA, c3recB]⟩]).rows.length = 2 := by
  decide

/-- Claim C3, amended: when two records agree componentwise after
lower-casing and trimming AND componentwise in raw emptiness, the later
one is discarded whole from the combined output (the output equals the
output with the later record deleted — no field-level merging), and the
earliest record with a given key always appears (canonically shaped). -/
theorem claim_C3 : ∀ (cs : List String) (l1 l2 l3 : List Rec) (a b : Rec),
    (∀ f ∈ keyFields,
      pyStrip (pyLower ((getA a f (Val.str "")).toPy)) =
        pyStrip (pyLower ((getA b f (Val.str "")).toPy)) ∧
      (((getA a f (Val.str "")).toPy = "") ↔ ((getA b f (Val.str "")).toPy = ""))) →
    combineAndDedup [⟨cs, l1 ++ a :: l2 ++ b :: l3⟩] =
      combineAndDedup [⟨cs, l1 ++ a :: l2 ++ l3⟩] ∧
    ((∀ x ∈ l1, genUniqueKey x ≠ genUniqueKey a) →
      canonicalShape a ∈ (combineAndDedup [⟨cs, l1 ++ a :: l2 ++ b :: l3⟩]).rows) := by
  intro cs l1 l2 l3 a b hpre
  have hk : genUniqueKey a = genUniqueKey b := genUniqueKey_eq hpre
  constructor
  · rw [combineAndDedup, combineAndDedup]
    simp only [List.map_cons, List.map_nil, List.flatten_cons, List.flatten_nil,
      List.append_nil]
    rw [dedupByKey, dedupByKey, dedupAux_erase _ _ _ _ _ _ hk]
  · intro hfirst
    rw [combineAndDedup]
    simp only [List.map_cons, List.map_nil, List.flatten_cons, List.flatten_nil,
      List.append_nil]
    rw [dedupByKey, List.append_assoc, List.cons_append]
    exact List.mem_map_of_mem _
      (dedupAux_first_mem [] l1 a (l2 ++ b :: l3) (by simp) hfirst)

/-- Claim C3, witness: two records with identical raw key components and
different phones; the later one is dropped whole and the earlier one
appears. -/
theorem claim_C3_witness :
    combineAndDedup [⟨outputColumns, [] ++ c3recC :: [] ++ c3recD :: []⟩] =
      combineAndDedup [⟨outputColumns, [] ++ c3recC :: [] ++ []⟩] ∧
    canonicalShape c3recC ∈
      (combineAndDedup [⟨outputColumns, [] ++ c3recC :: [] ++ c3recD :: []⟩]).rows :=
  ⟨(claim_C3 outputColumns [] [] [] c3recC c3recD (by decide)).1,
   (claim_C3 outputColumns [] [] [] c3recC c3recD (by decide)).2 (by simp)⟩

/-- Claim C4, counterexample: a record whose only populated slot is a NaN
mailing address passes the truthiness-based filter and is emitted, yet it
fails the claimed non-empty-string predicate — refuting the claim that
every output record has a non-empty-string phone, email or mailing
address. -/
theorem claim_C4_counterexample :
    (processMemoryFiles c4files).rows.length = 1 ∧
    (processMemoryFiles c4files).rows.all specHasContactInfo = false := by decide

/-- Claim C4, amended: every record of every combined output satisfies
the code's has-contact-info predicate, which is Python truthiness: some
phone slot non-empty, some email slot non-empty, or the mailing-address
slot truthy (a non-empty string or the NaN sentinel). -/
theorem claim_C4 : ∀ (files : List (List String × List Row)) (r : Rec),
    r ∈ (processMemoryFiles files).rows → hasContactInfo r = true := by
  intro files r hr
  obtain ⟨u, hru, hci, _⟩ := processMemoryFiles_rows hr
  rw [hru, hasContactInfo_canon]
  exact hci

/-- Claim C4, witness: the theorem applied to the concrete one-table
input whose output has one record. -/
theorem claim_C4_witness :
    hasContactInfo ((processMemoryFiles c1files).rows.getD 0 []) = true :=
  claim_C4 c1files _ (by decide)

/-- Claim C5, counterexample: a phone value carrying surrounding
whitespace is not re-assigned verbatim — the output slot holds its
str()-converted, stripped form — refuting the claim that the collected
source values themselves are re-assigned to the output slots. -/
theorem claim_C5_counterexample :
    (mapInputToOutput c5row c5cmap).map (fun r => getA r "Phone 1" (Val.str "")) =
      .ok (Val.str "555") ∧ (" 555 " : String) ≠ "555" := by decide

/-- Claim C5, amended: for every successfully transformed row, phone slot
j holds the j-th value (or empty past the end) of the ordinal-sorted list
of collected phone values — mapped slots Phone 1..5 whose cell is present,
truthy and non-NaN, each value str()-converted and stripped — and email
slot j the same over the mapping's Email-prefixed keys with their parsed
ordinals: gaps closed, truncated beyond five, slots reset beforehand. -/
theorem claim_C5 : ∀ (row : Row) (cmap : List (String × String)) (rec : Rec),
    mapInputToOutput row cmap = .ok rec → ∀ j, 1 ≤ j → j ≤ 5 →
    getA rec (phoneSlot j) (Val.str "") = Val.str (specPhoneAt row cmap j) ∧
    getA rec (emailSlot j) (Val.str "") = Val.str (specEmailAt row cmap j) :=
  fun _ _ _ h j h1 hj => ⟨mapOut_phone h j h1 hj, mapOut_email h j h1 hj⟩

/-- Claim C5, witness: the theorem applied to the concrete row whose
phone value carries whitespace. -/
theorem claim_C5_witness :
    mapInputToOutput c5row c5cmap = .ok c5rec ∧
    getA c5rec (phoneSlot 1) (Val.str "") = Val.str (specPhoneAt c5row c5cmap 1) ∧
    getA c5rec (emailSlot 1) (Val.str "") = Val.str (specEmailAt c5row c5cmap 1) :=
  ⟨by decide,
   (claim_C5 c5row c5cmap c5rec (by decide) 1 (by decide) (by decide)).1,
   (claim_C5 c5row c5cmap c5rec (by decide) 1 (by decide) (by decide)).2⟩

/-- Claim C6: when the column mapping has neither name entry and the
full-name alias search finds a non-missing string value with at least one
whitespace token, the first token becomes the first name and the
remaining tokens joined by single spaces become the last name (covering
the one-, two- and three-or-more-token cases uniformly). -/
theorem claim_C6 : ∀ (row : Row) (cmap : List (String × String)) (s t : String)
    (ts : List String),
    lookupA cmap "First Name" = none → lookupA cmap "Last Name" = none →
    findFullName row = some (Val.str s) → pyTokens (pyStrip s) = t :: ts →
    (mapInputToOutput row cmap).map
        (fun r => (getA r "First Name" (Val.str ""),
          getA r "Last Name" (Val.str ""))) =
      .ok (Val.str t, Val.str (joinSpace ts)) := by
  intro row cmap s t ts hf hl hfind htok
  have hn := namePhase_split (directPhase row cmap) hf hl hfind htok
  rw [mapInputToOutput_eq_ok hn, Except.map]
  have hF : getA (emailPhase row cmap (phonePhase row cmap
      (unitPhaseMailing (unitPhaseStreet
        (setF (setF (directPhase row cmap) "First Name" (Val.str t)) "Last Name"
          (Val.str (joinSpace ts)))))))
      "First Name" (Val.str "") = Val.str t := by
    rw [emailPhase_notouch _ _ _ _ _
        (fun k hk => emailSlot_ne_special hk (by decide)),
      phonePhase_notouch _ _ _ _ _
        (fun k hk => phoneSlot_ne_special hk (by decide)),
      unitPhaseMailing_notouch _ _ _ (by decide) (by decide),
      unitPhaseStreet_notouch _ _ _ (by decide) (by decide),
      getA_setF_ne _ _ _ (by decide), getA_setF_same]
  have hL : getA (emailPhase row cmap (phonePhase row cmap
      (unitPhaseMailing (unitPhaseStreet
        (setF (setF (directPhase row cmap) "First Name" (Val.str t)) "Last Name"
          (Val.str (joinSpace ts)))))))
      "Last Name" (Val.str "") = Val.str (joinSpace ts) := by
    rw [emailPhase_notouch _ _ _ _ _
        (fun k hk => emailSlot_ne_special hk (by decide)),
      phonePhase_notouch _ _ _ _ _
        (fun k hk => phoneSlot_ne_special hk (by decide)),
      unitPhaseMailing_notouch _ _ _ (by decide) (by decide),
      unitPhaseStreet_notouch _ _ _ (by decide) (by decide),
      getA_setF_same]
  rw [hF, hL]

/-- Claim C6, witness: the spec's own Mary Jane Watson example. -/
theorem claim_C6_witness :
    (mapInputToOutput c6row []).map
        (fun r => (getA r "First Name" (Val.str ""),
          getA r "Last Name" (Val.str ""))) =
      .ok (Val.str "Mary", Val.str (joinSpace ["Jane", "Watson"])) :=
  claim_C6 c6row [] "Mary Jane Watson" "Mary" ["Jane", "Watson"]
    (by decide) (by decide) (by decide) (by decide)

/-- Claim C7, counterexample: on an address with two designator matches,
re.sub removes every occurrence, not just the matched one: the unit is
the first captured token but the cleaned address has lost the second
designator too (the claim's removal of only the matched token would
leave the text two-spaces-Apt-4 in the address). -/
theorem claim_C7_counterexample :
    extractUnit (Val.str "12 Apt 3 Apt 4") = ("12", "3") ∧
    ("12" : String) ≠ "12  Apt 4" := by decide

/-- Claim C7, amended: when the unit slot is unmapped and the mapped
address cell is a non-empty string, the output address/unit pair is the
extraction result — designator pattern first, then trailing token, first
match wins, the captured token goes to the unit slot and every occurrence
of the matching pattern is removed from the address, which is then
trimmed; the identical procedure applies independently to the property
and the mailing address; and the spec's worked example holds. -/
theorem claim_C7 :
    (∀ (row : Row) (cmap : List (String × String)) (rec : Rec) (c a : String),
      mapInputToOutput row cmap = .ok rec →
      lookupA cmap "Unit #" = none →
      lookupA cmap "Street Address" = some c →
      lookupA row c = some (Val.str a) → a ≠ "" →
      (getA rec "Street Address" (Val.str ""), getA rec "Unit #" (Val.str "")) =
        if (extractUnit (Val.str a)).2 ≠ "" then
          (Val.str (extractUnit (Val.str a)).1,
            Val.str (extractUnit (Val.str a)).2)
        else (Val.str a, Val.str "")) ∧
    (∀ (row : Row) (cmap : List (String × String)) (rec : Rec) (c a : String),
      mapInputToOutput row cmap = .ok rec →
      lookupA cmap "Mailing Unit #" = none →
      lookupA cmap "Mailing Address" = some c →
      lookupA row c = some (Val.str a) → a ≠ "" →
      (getA rec "Mailing Address" (Val.str ""),
          getA rec "Mailing Unit #" (Val.str "")) =
        if (extractUnit (Val.str a)).2 ≠ "" then
          (Val.str (extractUnit (Val.str a)).1,
            Val.str (extractUnit (Val.str a)).2)
        else (Val.str a, Val.str "")) ∧
    extractUnit (Val.str "123 Main St Apt 4B") = ("123 Main St", "4B") :=
  ⟨fun _ _ _ _ _ h h1 h2 h3 h4 => streetUnit_of h h1 h2 h3 h4,
   fun _ _ _ _ _ h h1 h2 h3 h4 => mailingUnit_of h h1 h2 h3 h4,
   by decide⟩

/-- Claim C7, witness: the street conjunct applied to the worked
example row. -/
theorem claim_C7_witness :
    mapInputToOutput c7row c7cmap = .ok c7rec ∧
    (getA c7rec "Street Address" (Val.str ""), getA c7rec "Unit #" (Val.str "")) =
      (if (extractUnit (Val.str "123 Main St Apt 4B")).2 ≠ "" then
        (Val.str (extractUnit (Val.str "123 Main St Apt 4B")).1,
          Val.str (extractUnit (Val.str "123 Main St Apt 4B")).2)
      else (Val.str "123 Main St Apt 4B", Val.str "")) :=
  ⟨by decide,
   claim_C7.1 c7row c7cmap c7rec "A" "123 Main St Apt 4B"
     (by decide) (by decide) (by decide) (by decide) (by decide)⟩

/-- Claim C8, counterexample: two column lists with the same member set
but different order produce different mappings (Phone 1 and Cell 1 both
map to the slot Phone 1, and the later column wins), refuting the claim
that the mapping is a function of the column-name set. -/
theorem claim_C8_counterexample :
    (∀ c ∈ (["Phone 1", "Cell 1"] : List String),
      c ∈ (["Cell 1", "Phone 1"] : List String)) ∧
    (∀ c ∈ (["Cell 1", "Phone 1"] : List String),
      c ∈ (["Phone 1", "Cell 1"] : List String)) ∧
    createColumnMapping ["Phone 1", "Cell 1"] ≠
      createColumnMapping ["Cell 1", "Phone 1"] := by decide

/-- Claim C8, amended: the Column Mapper is a pure, deterministic
function of the column-name sequence (order matters for
pattern-discovered slots); in particular it has no cross-table state:
every mapped source column is one of this table's own columns. -/
theorem claim_C8 : ∀ (cols : List String) (k v : String),
    (k, v) ∈ createColumnMapping cols → v ∈ cols :=
  fun cols k v h => createColumnMapping_vals cols (k, v) h

/-- Claim C8, witness: the theorem applied to the concrete two-column
table. -/
theorem claim_C8_witness :
    ("Phone 1", "Cell 1") ∈ createColumnMapping ["Phone 1", "Cell 1"] ∧
    "Cell 1" ∈ (["Phone 1", "Cell 1"] : List String) :=
  ⟨by decide, claim_C8 ["Phone 1", "Cell 1"] "Phone 1" "Cell 1" (by decide)⟩

/-- Claim C9: combining zero frames yields the empty table that still has
all 27 canonical columns, and a run in which no table contributes any
kept row yields the same empty canonical table, never an error. -/
theorem claim_C9 :
    combineAndDedup [] = ⟨outputColumns, []⟩ ∧
    ∀ files : List (List String × List Row),
      (∀ p ∈ files, (processFileContent p.1 p.2).rows = []) →
      processMemoryFiles files = ⟨outputColumns, []⟩ := by
  constructor
  · rfl
  · intro files hall
    rw [processMemoryFiles]
    have hfilt : (files.map fun f => processFileContent f.1 f.2).filter
        (fun d => !d.rows.isEmpty) = [] := by
      rw [List.filter_eq_nil_iff]
      intro d hd
      obtain ⟨p, hp, hpd⟩ := List.mem_map.mp hd
      rw [← hpd]
      simp [hall p hp]
    rw [hfilt]
    rfl

/-- Claim C9, witness: a table whose only row has no contact information
contributes nothing, and the combined result is the canonical empty
frame. -/
theorem claim_C9_witness :
    (∀ p ∈ c9files, (processFileContent p.1 p.2).rows = []) ∧
    processMemoryFiles c9files = ⟨outputColumns, []⟩ :=
  ⟨by decide, claim_C9.2 c9files (by decide)⟩

/-- Claim C10: the duplicate-identity key is not injective on the
address-and-owner tuples: a record with its locality in City and empty
State collides with one carrying the same text in State and empty City —
their six-component tuples differ, their keys agree, and the combined
output collapses them into the single earliest record. -/
theorem claim_C10 :
    genUniqueKey c10recA = genUniqueKey c10recB ∧
    (keyFields.map fun f => getA c10recA f (Val.str "")) ≠
      (keyFields.map fun f => getA c10recB f (Val.str "")) ∧
    (combineAndDedup [⟨outputColumns, [c10recA, c10recB]⟩]).rows =
      [canonicalShape c10recA] := by decide
